import Mathlib

/-!
Verification of the Postman-collection rewriter `src/API/colkection/ko.py`.

The script loads one JSON document, recursively walks its nested `item`
tree (`clean_item`), overwrites the `request`, `event[*].script` and
`response` fields of every leaf (`name_item`), and writes the document
back.  We embed the JSON data model (`JVal`, with Python `dict`
insertion-order semantics for objects), the two functions, the module
top-level loop (`run`) and a file-state model of the read–modify–write
cycle (`scriptRun`), and prove the specified properties about them.

Python run-time errors (`TypeError`, `AttributeError`, `KeyError`) are
modelled with `Except String`: an uncaught exception aborts the run.
In-place mutation is modelled functionally: each function returns the
mutated value, and callers put it back where the original stood, which
is observationally equivalent because `json.load` never produces aliased
sub-objects.
-/

namespace Ko

/-- JSON values as produced by `json.load`.  Objects are insertion-ordered
key/value lists — Python dicts preserve insertion order, and `d[k] = v`
keeps the position of an existing key.  Numbers are modelled as `Int`;
no claim depends on numeric values. -/
inductive JVal where
  | null : JVal
  | bool : Bool → JVal
  | num : Int → JVal
  | str : String → JVal
  | arr : List JVal → JVal
  | obj : List (String × JVal) → JVal

/-- Python `d[k]` and `k in list(d.keys())` in one function: the binding of
`k` in the object (keys of a dict produced by `json.load` are unique, so
first-binding semantics agree with Python). -/
def lookup : List (String × JVal) → String → Option JVal
  | [], _ => none
  | (k', v) :: o, k => if k' = k then some v else lookup o k

/-- Python `d[k] = v`: replace the value in place if the key is present
(keeping its position), otherwise append the new binding at the end. -/
def setKey : List (String × JVal) → String → JVal → List (String × JVal)
  | [], k, v => [(k, v)]
  | (k', v') :: o, k, v => if k' = k then (k, v) :: o else (k', v') :: setKey o k v

/-- The fixed `request` object installed by `name_item` (ko.py lines 4-13). -/
def requestScaffold : JVal :=
  .obj [("method", .str "POST"),
        ("header", .arr [.obj [("key", .str "Authorization"),
                               ("value", .str "Bearer \x7b\x7baccess_token\x7d\x7d"),
                               ("type", .str "text")]])]

/-- The fixed `script` object installed into every event entry
(ko.py lines 16-21). -/
def scriptScaffold : JVal :=
  .obj [("type", .str "text/javascript"),
        ("exec", .arr [.str "pm.variables.set(\x27access_token\x27, pm.response.json().access_token);"])]

/-- The fixed `response` array (ko.py lines 22-25); note the trailing space
inside both names. -/
def responseScaffold : JVal :=
  .arr [.obj [("name", .str "Success response ")],
        .obj [("name", .str "Error response ")]]

/-- The loop `for event in subitem['event']: event['script'] = {...}`
(ko.py lines 15-21) over a Python list: each element must be a dict
(`event['script'] = ...` on anything else raises `TypeError`), and the
error of the first offending element aborts the loop. -/
def set_event_scripts : List JVal → Except String (List JVal)
  | [] => .ok []
  | .obj eo :: es =>
    match set_event_scripts es with
    | .error e => .error e
    | .ok es' => .ok (.obj (setKey eo "script" scriptScaffold) :: es')
  | _ :: _ => .error "TypeError"

/-- ko.py `name_item` (lines 3-25): overwrite `request`, then — checking the
already-updated dict, exactly as the source does — iterate `event` if that
key is present, overwriting each element's `script`, and finally overwrite
`response`.  Iterating a non-list `event` value follows Python: a dict
yields its keys and a string yields its characters, both of which are
strings, and `event['script'] = ...` on a string raises `TypeError`, so
only the empty dict and the empty string make the loop a no-op; `null`,
booleans and numbers are not iterable (`TypeError`).  Calling `name_item`
on a non-dict raises `TypeError` at the first item assignment. -/
def name_item : JVal → Except String JVal
  | .obj o =>
    let o1 := setKey o "request" requestScaffold
    match lookup o1 "event" with
    | none => .ok (.obj (setKey o1 "response" responseScaffold))
    | some (.arr evs) =>
      match set_event_scripts evs with
      | .error e => .error e
      | .ok evs' => .ok (.obj (setKey (setKey o1 "event" (.arr evs')) "response" responseScaffold))
    | some (.obj kvs) =>
      if kvs.isEmpty then .ok (.obj (setKey o1 "response" responseScaffold)) else .error "TypeError"
    | some (.str s) =>
      if s.isEmpty then .ok (.obj (setKey o1 "response" responseScaffold)) else .error "TypeError"
    | some _ => .error "TypeError"
  | _ => .error "TypeError"

/-- Any value delivered by `lookup` sits inside the object, so it is
structurally smaller; this justifies the recursion of `clean_item`. -/
theorem sizeOf_lookup_lt (o : List (String × JVal)) (k : String) (v : JVal)
    (h : lookup o k = some v) : sizeOf v < 1 + sizeOf o := by
  induction o with
  | nil => simp [lookup] at h
  | cons p o ih =>
    obtain ⟨k', v'⟩ := p
    rw [lookup] at h
    split at h
    · cases h
      simp
      omega
    · have := ih h
      simp
      omega

mutual

/-- ko.py `clean_item` (lines 26-31): a node with an `item` key is a folder
and is only recursed into; a node without one is a leaf and is handed to
`name_item`.  `subitem.keys()` on a non-dict raises `AttributeError`.
Iterating a non-list `item` value follows Python exactly as in `name_item`:
a non-empty dict or string yields strings, on which the recursive
`clean_item` call raises `AttributeError` immediately, an empty dict or
string makes the loop a no-op, and other values raise `TypeError`. -/
def clean_item : JVal → Except String JVal
  | .obj o =>
    (match h : lookup o "item" with
     | some (.arr xs) =>
       match clean_items xs with
       | .error e => .error e
       | .ok xs' => .ok (.obj (setKey o "item" (.arr xs')))
     | some (.obj kvs) => if kvs.isEmpty then .ok (.obj o) else .error "AttributeError"
     | some (.str s) => if s.isEmpty then .ok (.obj o) else .error "AttributeError"
     | some _ => .error "TypeError"
     | none => name_item (.obj o))
  | _ => .error "AttributeError"
termination_by v => sizeOf v
decreasing_by
  have h1 := sizeOf_lookup_lt o "item" (.arr xs) h
  simp at h1 ⊢
  omega

/-- The loop `for item in subitem['item']: clean_item(item)` over a list:
children are visited in array order, and the first error aborts the loop. -/
def clean_items : List JVal → Except String (List JVal)
  | [] => .ok []
  | x :: xs =>
    match clean_item x with
    | .error e => .error e
    | .ok x' =>
      match clean_items xs with
      | .error e => .error e
      | .ok xs' => .ok (x' :: xs')
termination_by xs => sizeOf xs
decreasing_by
  all_goals simp
  all_goals omega

end

/-- The module top-level loop (ko.py lines 42-43):
`for item in data['item']: clean_item(item)`.  `data['item']` on a non-dict
raises `TypeError`; a missing `item` key raises `KeyError` (no presence
check here, unlike `clean_item`); iterating a non-list value follows
Python exactly as documented at `clean_item`. -/
def run (data : JVal) : Except String JVal :=
  match data with
  | .obj o =>
    match lookup o "item" with
    | some (.arr xs) =>
      match clean_items xs with
      | .error e => .error e
      | .ok xs' => .ok (.obj (setKey o "item" (.arr xs')))
    | some (.obj kvs) => if kvs.isEmpty then .ok (.obj o) else .error "AttributeError"
    | some (.str s) => if s.isEmpty then .ok (.obj o) else .error "AttributeError"
    | some _ => .error "TypeError"
    | none => .error "KeyError"
  | _ => .error "TypeError"

/-- The whole script (ko.py lines 33-46) as a function of the state of the
file at the hard-coded path: read it (missing file: `FileNotFoundError`),
parse it (`json.load`, a standard-library function taken as a parameter
`parse`; a `JSONDecodeError` is its `.error` case), traverse the tree, and
only then serialize (`json.dump`, parameter `render`) and overwrite the
file.  The second component is the file content after the run; any error
leaves it untouched because the write statement is the last one. -/
def scriptRun (parse : String → Except String JVal) (render : JVal → String)
    (fs : Option String) : Except String Unit × Option String :=
  match fs with
  | none => (.error "FileNotFoundError", none)
  | some content =>
    match parse content with
    | .error e => (.error e, some content)
    | .ok data =>
      match run data with
      | .error e => (.error e, some content)
      | .ok data' => (.ok (), some (render data'))

mutual

/-- `clean_item` with an explicit bound on the recursion depth, used to
state that the plain recursion of the source terminates with no depth
limit: any `fuel` at least the size of the input makes this function agree
with the total `clean_item`. -/
def clean_item_fuel : Nat → JVal → Except String JVal
  | 0, _ => .error "RecursionError"
  | Nat.succ n, .obj o =>
    (match lookup o "item" with
     | some (.arr xs) =>
       match clean_items_fuel n xs with
       | .error e => .error e
       | .ok xs' => .ok (.obj (setKey o "item" (.arr xs')))
     | some (.obj kvs) => if kvs.isEmpty then .ok (.obj o) else .error "AttributeError"
     | some (.str s) => if s.isEmpty then .ok (.obj o) else .error "AttributeError"
     | some _ => .error "TypeError"
     | none => name_item (.obj o))
  | Nat.succ _, _ => .error "AttributeError"
termination_by n _ => (n, 0)

/-- Depth-bounded version of `clean_items`; the bound is only consumed when
descending into a child, matching the call-stack depth of the source. -/
def clean_items_fuel : Nat → List JVal → Except String (List JVal)
  | _, [] => .ok []
  | n, x :: xs =>
    match clean_item_fuel n x with
    | .error e => .error e
    | .ok x' =>
      match clean_items_fuel n xs with
      | .error e => .error e
      | .ok xs' => .ok (x' :: xs')
termination_by n xs => (n, 1 + sizeOf xs)

end

/-- The leaf dicts that the walk reaches inside a value: the value itself
when it is a dict without an `item` key, and, when it is a folder whose
`item` value is a list, every leaf reachable inside any child. -/
inductive LeafIn : JVal → List (String × JVal) → Prop where
  | here (o : List (String × JVal)) :
      lookup o "item" = none → LeafIn (.obj o) o
  | there (o : List (String × JVal)) (xs : List JVal) (x : JVal)
      (l : List (String × JVal)) :
      lookup o "item" = some (.arr xs) → x ∈ xs → LeafIn x l → LeafIn (.obj o) l

/-- Setting a key makes it present with the new value. -/
theorem lookup_setKey_self (o : List (String × JVal)) (k : String) (v : JVal) :
    lookup (setKey o k v) k = some v := by
  induction o with
  | nil => simp [lookup, setKey]
  | cons p o ih =>
    obtain ⟨ka, va⟩ := p
    by_cases hka : ka = k
    · simp [setKey, hka, lookup]
    · simp [setKey, hka, lookup, ih]

/-- Setting a key leaves every other key untouched. -/
theorem lookup_setKey_ne (o : List (String × JVal)) (k : String) (v : JVal)
    (k' : String) (h : k ≠ k') : lookup (setKey o k v) k' = lookup o k' := by
  induction o with
  | nil => simp [lookup, setKey, h]
  | cons p o ih =>
    obtain ⟨ka, va⟩ := p
    by_cases hka : ka = k
    · simp [setKey, hka, lookup, h]
    · simp [setKey, hka, lookup, ih]

/-- Re-installing the value a key already holds changes nothing. -/
theorem setKey_same (o : List (String × JVal)) (k : String) (v : JVal)
    (h : lookup o k = some v) : setKey o k v = o := by
  induction o with
  | nil => simp [lookup] at h
  | cons p o ih =>
    obtain ⟨ka, va⟩ := p
    by_cases hka : ka = k
    · simp [lookup, hka] at h
      simp [setKey, hka, h]
    · simp [lookup, hka] at h
      simp [setKey, hka, ih h]

/-- Setting a key that is already present keeps the key sequence of the
object (names and order) unchanged. -/
theorem keys_setKey (o : List (String × JVal)) (k : String) (v w : JVal)
    (h : lookup o k = some w) : (setKey o k v).map Prod.fst = o.map Prod.fst := by
  induction o with
  | nil => simp [lookup] at h
  | cons p o ih =>
    obtain ⟨ka, va⟩ := p
    by_cases hka : ka = k
    · simp [setKey, hka]
    · simp [lookup, hka] at h
      simp [setKey, hka, ih h]

/-- A successful event loop forces every element to be a dict and replaces
exactly its `script` field, keeping list order and length. -/
theorem set_event_scripts_ok (evs evs' : List JVal)
    (h : set_event_scripts evs = .ok evs') :
    ∃ eos : List (List (String × JVal)),
      evs = eos.map JVal.obj ∧
      evs' = eos.map (fun eo => JVal.obj (setKey eo "script" scriptScaffold)) := by
  induction evs generalizing evs' with
  | nil =>
    rw [set_event_scripts] at h
    cases h
    exact ⟨[], rfl, rfl⟩
  | cons x xs ih =>
    cases x with
    | obj eo =>
      rw [set_event_scripts] at h
      rcases hrec : set_event_scripts xs with e | xs0
      · rw [hrec] at h
        cases h
      · rw [hrec] at h
        cases h
        obtain ⟨eos, h1, h2⟩ := ih xs0 hrec
        exact ⟨eo :: eos, by simp [h1], by simp [h2]⟩
    | null => simp [set_event_scripts] at h
    | bool b => simp [set_event_scripts] at h
    | num n => simp [set_event_scripts] at h
    | str s => simp [set_event_scripts] at h
    | arr a => simp [set_event_scripts] at h

/-- Running the event loop over already-scaffolded events changes nothing. -/
theorem set_event_scripts_fix (eos : List (List (String × JVal))) :
    set_event_scripts (eos.map (fun eo => JVal.obj (setKey eo "script" scriptScaffold))) =
      .ok (eos.map (fun eo => JVal.obj (setKey eo "script" scriptScaffold))) := by
  induction eos with
  | nil => rfl
  | cons eo eos ih =>
    simp only [List.map]
    rw [set_event_scripts, ih]
    rw [setKey_same _ _ _ (lookup_setKey_self eo "script" scriptScaffold)]

/-- Exhaustive description of the successful runs of `name_item` on a dict:
the result is again a dict, obtained by overwriting `request`, then the
`script` of every event entry when `event` holds a list (an empty dict or
string under `event` also succeeds, trivially), and finally `response`. -/
theorem name_item_cases (o : List (String × JVal)) (w : JVal)
    (h : name_item (.obj o) = .ok w) :
    ∃ o2, w = .obj o2 ∧
      ((lookup o "event" = none ∧
          o2 = setKey (setKey o "request" requestScaffold) "response" responseScaffold) ∨
       (∃ evs evs', lookup o "event" = some (.arr evs) ∧
          set_event_scripts evs = .ok evs' ∧
          o2 = setKey (setKey (setKey o "request" requestScaffold) "event" (.arr evs'))
                 "response" responseScaffold) ∨
       (lookup o "event" = some (.obj []) ∧
          o2 = setKey (setKey o "request" requestScaffold) "response" responseScaffold) ∨
       (lookup o "event" = some (.str "") ∧
          o2 = setKey (setKey o "request" requestScaffold) "response" responseScaffold)) := by
  have hre : lookup (setKey o "request" requestScaffold) "event" = lookup o "event" :=
    lookup_setKey_ne o "request" requestScaffold "event" (by decide)
  rw [name_item] at h
  simp only [hre] at h
  rcases hev : lookup o "event" with _ | v
  · rw [hev] at h
    cases h
    exact ⟨_, rfl, Or.inl ⟨rfl, rfl⟩⟩
  · rw [hev] at h
    cases v with
    | arr evs =>
      rcases hse : set_event_scripts evs with e | evs'
      · simp [hse] at h
      · simp only [hse] at h
        simp at h
        subst h
        exact ⟨_, rfl, Or.inr (Or.inl ⟨evs, evs', rfl, hse, rfl⟩)⟩
    | obj kvs =>
      cases kvs with
      | nil =>
        simp at h
        subst h
        exact ⟨_, rfl, Or.inr (Or.inr (Or.inl ⟨rfl, rfl⟩))⟩
      | cons a l => simp at h
    | str st =>
      by_cases hs : st = ""
      · subst hs
        simp [String.isEmpty_iff] at h
        subst h
        exact ⟨_, rfl, Or.inr (Or.inr (Or.inr ⟨rfl, rfl⟩))⟩
      · simp [String.isEmpty_iff, hs] at h
    | null => simp at h
    | bool b => simp at h
    | num n => simp at h

/-- Unfolding of `clean_item` on a folder node (`item` key holding a list). -/
theorem clean_item_folder (o : List (String × JVal)) (xs : List JVal)
    (h : lookup o "item" = some (.arr xs)) :
    clean_item (.obj o) =
      (match clean_items xs with
       | .error e => .error e
       | .ok xs' => .ok (.obj (setKey o "item" (.arr xs')))) := by
  rw [clean_item]
  split <;> simp_all

/-- Unfolding of `clean_item` on a leaf node (no `item` key). -/
theorem clean_item_leaf (o : List (String × JVal)) (h : lookup o "item" = none) :
    clean_item (.obj o) = name_item (.obj o) := by
  rw [clean_item]
  split <;> simp_all

/-- Unfolding of `clean_item` when `item` holds a dict. -/
theorem clean_item_edge_obj (o kvs : List (String × JVal))
    (h : lookup o "item" = some (.obj kvs)) :
    clean_item (.obj o) =
      (if kvs.isEmpty then .ok (.obj o) else .error "AttributeError") := by
  rw [clean_item]
  split <;> simp_all
  rw [h]

/-- Unfolding of `clean_item` when `item` holds a string. -/
theorem clean_item_edge_str (o : List (String × JVal)) (st : String)
    (h : lookup o "item" = some (.str st)) :
    clean_item (.obj o) =
      (if st.isEmpty then .ok (.obj o) else .error "AttributeError") := by
  rw [clean_item]
  split <;> simp_all

/-- Unfolding of `clean_item` when `item` holds `null`. -/
theorem clean_item_edge_null (o : List (String × JVal))
    (h : lookup o "item" = some .null) :
    clean_item (.obj o) = .error "TypeError" := by
  rw [clean_item]
  split <;> simp_all

/-- Unfolding of `clean_item` when `item` holds a boolean. -/
theorem clean_item_edge_bool (o : List (String × JVal)) (b : Bool)
    (h : lookup o "item" = some (.bool b)) :
    clean_item (.obj o) = .error "TypeError" := by
  rw [clean_item]
  split <;> simp_all

/-- Unfolding of `clean_item` when `item` holds a number. -/
theorem clean_item_edge_num (o : List (String × JVal)) (n : Int)
    (h : lookup o "item" = some (.num n)) :
    clean_item (.obj o) = .error "TypeError" := by
  rw [clean_item]
  split <;> simp_all

/-- A mutated leaf carries the fixed `request` scaffold. -/
theorem name_item_request (o o2 : List (String × JVal))
    (h : name_item (.obj o) = .ok (.obj o2)) :
    lookup o2 "request" = some requestScaffold := by
  obtain ⟨o2', hw, hc⟩ := name_item_cases o _ h
  injection hw with hw
  subst hw
  rcases hc with ⟨-, rfl⟩ | ⟨evs, evs', -, -, rfl⟩ | ⟨-, rfl⟩ | ⟨-, rfl⟩
  · rw [lookup_setKey_ne _ _ _ _ (by decide), lookup_setKey_self]
  · rw [lookup_setKey_ne _ _ _ _ (by decide), lookup_setKey_ne _ _ _ _ (by decide),
      lookup_setKey_self]
  · rw [lookup_setKey_ne _ _ _ _ (by decide), lookup_setKey_self]
  · rw [lookup_setKey_ne _ _ _ _ (by decide), lookup_setKey_self]

/-- A mutated leaf carries the fixed `response` scaffold. -/
theorem name_item_response (o o2 : List (String × JVal))
    (h : name_item (.obj o) = .ok (.obj o2)) :
    lookup o2 "response" = some responseScaffold := by
  obtain ⟨o2', hw, hc⟩ := name_item_cases o _ h
  injection hw with hw
  subst hw
  rcases hc with ⟨-, rfl⟩ | ⟨evs, evs', -, -, rfl⟩ | ⟨-, rfl⟩ | ⟨-, rfl⟩ <;>
    rw [lookup_setKey_self]

/-- The leaf mutator touches nothing besides `request`, `event` and
`response`. -/
theorem name_item_other (o o2 : List (String × JVal)) (k : String)
    (h : name_item (.obj o) = .ok (.obj o2))
    (h1 : k ≠ "request") (h2 : k ≠ "event") (h3 : k ≠ "response") :
    lookup o2 k = lookup o k := by
  obtain ⟨o2', hw, hc⟩ := name_item_cases o _ h
  injection hw with hw
  subst hw
  rcases hc with ⟨-, rfl⟩ | ⟨evs, evs', -, -, rfl⟩ | ⟨-, rfl⟩ | ⟨-, rfl⟩
  · rw [lookup_setKey_ne _ _ _ _ (Ne.symm h3), lookup_setKey_ne _ _ _ _ (Ne.symm h1)]
  · rw [lookup_setKey_ne _ _ _ _ (Ne.symm h3), lookup_setKey_ne _ _ _ _ (Ne.symm h2),
      lookup_setKey_ne _ _ _ _ (Ne.symm h1)]
  · rw [lookup_setKey_ne _ _ _ _ (Ne.symm h3), lookup_setKey_ne _ _ _ _ (Ne.symm h1)]
  · rw [lookup_setKey_ne _ _ _ _ (Ne.symm h3), lookup_setKey_ne _ _ _ _ (Ne.symm h1)]

/-- The leaf mutator does not add or remove an `item` key. -/
theorem name_item_item (o o2 : List (String × JVal))
    (h : name_item (.obj o) = .ok (.obj o2)) :
    lookup o2 "item" = lookup o "item" :=
  name_item_other o o2 "item" h (by decide) (by decide) (by decide)

/-- Every element of a successful child sweep is the image of an input
child under `clean_item`. -/
theorem clean_items_mem (xs xs' : List JVal) (h : clean_items xs = .ok xs')
    (x' : JVal) (hx : x' ∈ xs') : ∃ x, x ∈ xs ∧ clean_item x = .ok x' := by
  induction xs generalizing xs' with
  | nil =>
    rw [clean_items] at h
    cases h
    simp at hx
  | cons y ys ih =>
    rw [clean_items] at h
    rcases hy : clean_item y with e | y'
    · rw [hy] at h
      cases h
    · rw [hy] at h
      rcases hys : clean_items ys with e | ys'
      · rw [hys] at h
        cases h
      · rw [hys] at h
        cases h
        rcases List.mem_cons.mp hx with rfl | hx'
        · exact ⟨y, List.mem_cons_self y ys, hy⟩
        · obtain ⟨x, hm, hok⟩ := ih ys' hys hx'
          exact ⟨x, List.mem_cons_of_mem y hm, hok⟩

/-- Core invariant of the walk: every leaf dict reachable inside a value
produced by a successful `clean_item` carries the `request` and `response`
scaffolds.  The bound `n` drives the induction. -/
theorem clean_item_leafP (n : Nat) : ∀ v v', sizeOf v ≤ n → clean_item v = .ok v' →
    ∀ l, LeafIn v' l →
      lookup l "request" = some requestScaffold ∧
      lookup l "response" = some responseScaffold := by
  induction n with
  | zero =>
    intro v v' hsize _ _ _
    cases v <;> simp at hsize
  | succ n ih =>
    intro v v' hsize hok l hL
    cases v with
    | obj o =>
      rcases hitem : lookup o "item" with _ | v0
      · rw [clean_item_leaf o hitem] at hok
        obtain ⟨o2, rfl, -⟩ := name_item_cases o _ hok
        cases hL with
        | here _ hnone =>
          exact ⟨name_item_request o _ hok, name_item_response o _ hok⟩
        | there _ xs2 x _ hsome hx hLx =>
          rw [name_item_item o _ hok, hitem] at hsome
          cases hsome
      · cases v0 with
        | arr xs =>
          rw [clean_item_folder o xs hitem] at hok
          rcases hcs : clean_items xs with e | xs'
          · rw [hcs] at hok
            cases hok
          · rw [hcs] at hok
            cases hok
            cases hL with
            | here _ hnone =>
              rw [lookup_setKey_self] at hnone
              cases hnone
            | there _ ys x _ hsome hx hLx =>
              rw [lookup_setKey_self] at hsome
              injection hsome with hsome
              injection hsome with hsome
              subst hsome
              obtain ⟨x0, hx0, hx0ok⟩ := clean_items_mem xs xs' hcs x hx
              have s1 : sizeOf x0 < sizeOf xs := List.sizeOf_lt_of_mem hx0
              have s2 := sizeOf_lookup_lt o "item" (.arr xs) hitem
              simp at s2 hsize
              exact ih x0 x (by omega) hx0ok l hLx
        | obj kvs =>
          rw [clean_item_edge_obj o kvs hitem] at hok
          cases kvs with
          | nil =>
            simp at hok
            subst hok
            cases hL with
            | here _ hnone => rw [hitem] at hnone; cases hnone
            | there _ ys x _ hsome hx hLx => rw [hitem] at hsome; cases hsome
          | cons a as => simp at hok
        | str st =>
          rw [clean_item_edge_str o st hitem] at hok
          by_cases hst : st = ""
          · subst hst
            simp [String.isEmpty_iff] at hok
            subst hok
            cases hL with
            | here _ hnone => rw [hitem] at hnone; cases hnone
            | there _ ys x _ hsome hx hLx => rw [hitem] at hsome; cases hsome
          · simp [String.isEmpty_iff, hst] at hok
        | null =>
          rw [clean_item_edge_null o hitem] at hok
          cases hok
        | bool b =>
          rw [clean_item_edge_bool o b hitem] at hok
          cases hok
        | num m =>
          rw [clean_item_edge_num o m hitem] at hok
          cases hok
    | null => simp [clean_item] at hok
    | bool b => simp [clean_item] at hok
    | num m => simp [clean_item] at hok
    | str st => simp [clean_item] at hok
    | arr a => simp [clean_item] at hok

/-- Top-level version of the walk invariant, for the whole script loop. -/
theorem run_leaf_scaffold (data out : JVal) (h : run data = .ok out)
    (l : List (String × JVal)) (hL : LeafIn out l) :
    lookup l "request" = some requestScaffold ∧
    lookup l "response" = some responseScaffold := by
  cases data with
  | obj o =>
    rw [run] at h
    rcases hitem : lookup o "item" with _ | v0
    · rw [hitem] at h
      cases h
    · rw [hitem] at h
      cases v0 with
      | arr xs =>
        rcases hcs : clean_items xs with e | xs'
        · simp [hcs] at h
        · simp [hcs] at h
          subst h
          cases hL with
          | here _ hnone =>
            rw [lookup_setKey_self] at hnone
            cases hnone
          | there _ ys x _ hsome hx hLx =>
            rw [lookup_setKey_self] at hsome
            injection hsome with hsome
            injection hsome with hsome
            subst hsome
            obtain ⟨x0, hx0, hx0ok⟩ := clean_items_mem xs xs' hcs x hx
            exact clean_item_leafP (sizeOf x0) x0 x (Nat.le_refl _) hx0ok l hLx
      | obj kvs =>
        cases kvs with
        | nil =>
          simp at h
          subst h
          cases hL with
          | here _ hnone => rw [hitem] at hnone; cases hnone
          | there _ ys x _ hsome hx hLx => rw [hitem] at hsome; cases hsome
        | cons a as => simp at h
      | str st =>
        by_cases hst : st = ""
        · subst hst
          simp [String.isEmpty_iff] at h
          subst h
          cases hL with
          | here _ hnone => rw [hitem] at hnone; cases hnone
          | there _ ys x _ hsome hx hLx => rw [hitem] at hsome; cases hsome
        · simp [String.isEmpty_iff, hst] at h
      | null => cases h
      | bool b => cases h
      | num m => cases h
  | null => simp [run] at h
  | bool b => simp [run] at h
  | num m => simp [run] at h
  | str st => simp [run] at h
  | arr a => simp [run] at h

/-- A dict that already carries the scaffolds (and whose `event`, if any,
is already scaffolded or trivially iterable) is a fixed point of
`name_item`. -/
theorem name_item_fix (o2 : List (String × JVal))
    (hrq : lookup o2 "request" = some requestScaffold)
    (hrs : lookup o2 "response" = some responseScaffold)
    (hev : lookup o2 "event" = none ∨
      (∃ eos : List (List (String × JVal)), lookup o2 "event" =
        some (.arr (eos.map fun eo => JVal.obj (setKey eo "script" scriptScaffold)))) ∨
      lookup o2 "event" = some (.obj []) ∨
      lookup o2 "event" = some (.str "")) :
    name_item (.obj o2) = .ok (.obj o2) := by
  have hsk : setKey o2 "request" requestScaffold = o2 := setKey_same _ _ _ hrq
  have hks : setKey o2 "response" responseScaffold = o2 := setKey_same _ _ _ hrs
  rw [name_item]
  simp only [hsk]
  rcases hev with hev | ⟨eos, hev⟩ | hev | hev
  · simp [hev, hks]
  · have hfix := set_event_scripts_fix eos
    have hke : setKey o2 "event"
        (.arr (eos.map fun eo => JVal.obj (setKey eo "script" scriptScaffold))) = o2 :=
      setKey_same _ _ _ hev
    simp [hev, hfix, hke, hks]
  · simp [hev, hks]
  · have he : "".isEmpty = true := by decide
    simp [hev, hks, he]

/-- The leaf mutator is idempotent on its successful results. -/
theorem name_item_idem (o o2 : List (String × JVal))
    (h : name_item (.obj o) = .ok (.obj o2)) :
    name_item (.obj o2) = .ok (.obj o2) := by
  have hrq := name_item_request o o2 h
  have hrs := name_item_response o o2 h
  obtain ⟨o2', hw, hc⟩ := name_item_cases o _ h
  injection hw with hw
  subst hw
  apply name_item_fix o2 hrq hrs
  rcases hc with ⟨hevN, ho2⟩ | ⟨evs, evs', hevA, hse, ho2⟩ | ⟨hevO, ho2⟩ | ⟨hevS, ho2⟩
  · left
    rw [ho2, lookup_setKey_ne _ _ _ _ (by decide), lookup_setKey_ne _ _ _ _ (by decide), hevN]
  · right
    left
    obtain ⟨eos, -, hevs'⟩ := set_event_scripts_ok evs evs' hse
    refine ⟨eos, ?_⟩
    rw [ho2, lookup_setKey_ne _ _ _ _ (by decide), lookup_setKey_self, hevs']
  · right
    right
    left
    rw [ho2, lookup_setKey_ne _ _ _ _ (by decide), lookup_setKey_ne _ _ _ _ (by decide), hevO]
  · right
    right
    right
    rw [ho2, lookup_setKey_ne _ _ _ _ (by decide), lookup_setKey_ne _ _ _ _ (by decide), hevS]

/-- The child sweep is idempotent as soon as `clean_item` is idempotent on
every child. -/
theorem clean_items_idem_of (xs xs' : List JVal) (h : clean_items xs = .ok xs')
    (hidem : ∀ x ∈ xs, ∀ x', clean_item x = .ok x' → clean_item x' = .ok x') :
    clean_items xs' = .ok xs' := by
  induction xs generalizing xs' with
  | nil =>
    rw [clean_items] at h
    cases h
    rw [clean_items]
  | cons y ys ih =>
    rw [clean_items] at h
    rcases hy : clean_item y with e | y'
    · rw [hy] at h
      cases h
    · rw [hy] at h
      rcases hys : clean_items ys with e | ys'
      · rw [hys] at h
        cases h
      · rw [hys] at h
        cases h
        have h1 : clean_item y' = .ok y' := hidem y (List.mem_cons_self y ys) y' hy
        have h2 : clean_items ys' = .ok ys' :=
          ih ys' hys (fun x hx => hidem x (List.mem_cons_of_mem y hx))
        rw [clean_items, h1, h2]

/-- The walker is idempotent on its successful results. -/
theorem clean_item_idem (n : Nat) : ∀ v v', sizeOf v ≤ n → clean_item v = .ok v' →
    clean_item v' = .ok v' := by
  induction n with
  | zero =>
    intro v v' hsize _
    cases v <;> simp at hsize
  | succ n ih =>
    intro v v' hsize hok
    cases v with
    | obj o =>
      rcases hitem : lookup o "item" with _ | v0
      · rw [clean_item_leaf o hitem] at hok
        obtain ⟨o2, rfl, -⟩ := name_item_cases o _ hok
        have hi2 : lookup o2 "item" = none := by
          rw [name_item_item o _ hok, hitem]
        rw [clean_item_leaf o2 hi2]
        exact name_item_idem o o2 hok
      · cases v0 with
        | arr xs =>
          rw [clean_item_folder o xs hitem] at hok
          rcases hcs : clean_items xs with e | xs'
          · rw [hcs] at hok
            cases hok
          · rw [hcs] at hok
            cases hok
            have hi2 : lookup (setKey o "item" (.arr xs')) "item" = some (.arr xs') :=
              lookup_setKey_self o "item" (.arr xs')
            have hsz : sizeOf (JVal.obj o) ≤ n + 1 := hsize
            have s2 := sizeOf_lookup_lt o "item" (.arr xs) hitem
            simp at s2 hsz
            have hidem : ∀ x ∈ xs, ∀ x', clean_item x = .ok x' → clean_item x' = .ok x' := by
              intro x hx x' hx'
              have s1 : sizeOf x < sizeOf xs := List.sizeOf_lt_of_mem hx
              exact ih x x' (by omega) hx'
            have hfix := clean_items_idem_of xs xs' hcs hidem
            rw [clean_item_folder _ xs' hi2, hfix]
            simp [setKey_same _ _ _ (lookup_setKey_self o "item" (.arr xs'))]
        | obj kvs =>
          rw [clean_item_edge_obj o kvs hitem] at hok
          cases kvs with
          | nil =>
            simp at hok
            subst hok
            rw [clean_item_edge_obj o [] hitem]
            rfl
          | cons a as => simp at hok
        | str st =>
          rw [clean_item_edge_str o st hitem] at hok
          by_cases hst : st = ""
          · subst hst
            simp [String.isEmpty_iff] at hok
            subst hok
            rw [clean_item_edge_str o "" hitem]
            rfl
          · simp [String.isEmpty_iff, hst] at hok
        | null =>
          rw [clean_item_edge_null o hitem] at hok
          cases hok
        | bool b =>
          rw [clean_item_edge_bool o b hitem] at hok
          cases hok
        | num m =>
          rw [clean_item_edge_num o m hitem] at hok
          cases hok
    | null => simp [clean_item] at hok
    | bool b => simp [clean_item] at hok
    | num m => simp [clean_item] at hok
    | str st => simp [clean_item] at hok
    | arr a => simp [clean_item] at hok

/-- The whole mutation pass is idempotent on its successful results. -/
theorem run_idem (data out : JVal) (h : run data = .ok out) : run out = .ok out := by
  cases data with
  | obj o =>
    rw [run] at h
    rcases hitem : lookup o "item" with _ | v0
    · rw [hitem] at h
      cases h
    · rw [hitem] at h
      cases v0 with
      | arr xs =>
        rcases hcs : clean_items xs with e | xs'
        · simp [hcs] at h
        · simp [hcs] at h
          subst h
          have hidem : ∀ x ∈ xs, ∀ x', clean_item x = .ok x' → clean_item x' = .ok x' :=
            fun x _ x' hx' => clean_item_idem (sizeOf x) x x' (Nat.le_refl _) hx'
          have hfix := clean_items_idem_of xs xs' hcs hidem
          rw [run, lookup_setKey_self o "item" (.arr xs')]
          simp [hfix, setKey_same _ _ _ (lookup_setKey_self o "item" (.arr xs'))]
      | obj kvs =>
        cases kvs with
        | nil =>
          simp at h
          subst h
          rw [run, hitem]
          rfl
        | cons a as => simp at h
      | str st =>
        by_cases hst : st = ""
        · subst hst
          simp [String.isEmpty_iff] at h
          subst h
          rw [run, hitem]
          rfl
        · simp [String.isEmpty_iff, hst] at h
      | null => cases h
      | bool b => cases h
      | num m => cases h
  | null => simp [run] at h
  | bool b => simp [run] at h
  | num m => simp [run] at h
  | str st => simp [run] at h
  | arr a => simp [run] at h

/-- The child sweep never adds or removes children. -/
theorem clean_items_length (xs xs' : List JVal) (h : clean_items xs = .ok xs') :
    xs'.length = xs.length := by
  induction xs generalizing xs' with
  | nil =>
    rw [clean_items] at h
    cases h
    rfl
  | cons y ys ih =>
    rw [clean_items] at h
    rcases hy : clean_item y with e | y'
    · rw [hy] at h
      cases h
    · rw [hy] at h
      rcases hys : clean_items ys with e | ys'
      · rw [hys] at h
        cases h
      · rw [hys] at h
        cases h
        simp [ih ys' hys]

/-- Position by position, the output children of a sweep are the
`clean_item` images of the input children. -/
theorem clean_items_get (xs xs' : List JVal) (h : clean_items xs = .ok xs') :
    ∀ i (h1 : i < xs.length) (h2 : i < xs'.length),
      clean_item (xs.get ⟨i, h1⟩) = .ok (xs'.get ⟨i, h2⟩) := by
  induction xs generalizing xs' with
  | nil =>
    intro i h1 h2
    simp at h1
  | cons y ys ih =>
    rw [clean_items] at h
    rcases hy : clean_item y with e | y'
    · rw [hy] at h
      cases h
    · rw [hy] at h
      rcases hys : clean_items ys with e | ys'
      · rw [hys] at h
        cases h
      · rw [hys] at h
        cases h
        intro i h1 h2
        cases i with
        | zero => simpa using hy
        | succ j => exact ih ys' hys j (by simpa using h1) (by simpa using h2)

/-- The bounded sweep agrees with the unbounded one as soon as the bound is
good for every child. -/
theorem clean_items_fuel_eq (n : Nat) (xs : List JVal)
    (hx : ∀ x ∈ xs, clean_item_fuel n x = clean_item x) :
    clean_items_fuel n xs = clean_items xs := by
  induction xs with
  | nil => rw [clean_items_fuel, clean_items]
  | cons y ys ih =>
    have h1 := hx y (List.mem_cons_self y ys)
    have h2 := ih (fun x hxm => hx x (List.mem_cons_of_mem y hxm))
    rw [clean_items_fuel, clean_items, h1]
    simp only [h2]

/-- Any fuel bounded below by the size of the input makes the bounded
walker agree with the plain recursive one: the recursion of `clean_item`
needs no depth limit beyond the nesting structure of the tree itself. -/
theorem clean_item_fuel_eq (n : Nat) : ∀ v, sizeOf v ≤ n →
    clean_item_fuel n v = clean_item v := by
  induction n with
  | zero =>
    intro v h
    cases v <;> simp at h
  | succ n ih =>
    intro v hsize
    cases v with
    | obj o =>
      rcases hitem : lookup o "item" with _ | v0
      · simp [clean_item_fuel, hitem, clean_item_leaf o hitem]
      · cases v0 with
        | arr xs =>
          have s2 := sizeOf_lookup_lt o "item" (.arr xs) hitem
          simp at s2 hsize
          have hx : ∀ x ∈ xs, clean_item_fuel n x = clean_item x := by
            intro x hxm
            have s1 : sizeOf x < sizeOf xs := List.sizeOf_lt_of_mem hxm
            exact ih x (by omega)
          have hcf := clean_items_fuel_eq n xs hx
          simp [clean_item_fuel, hitem, hcf, clean_item_folder o xs hitem]
        | obj kvs => simp [clean_item_fuel, hitem, clean_item_edge_obj o kvs hitem]
        | str st => simp [clean_item_fuel, hitem, clean_item_edge_str o st hitem]
        | null => simp [clean_item_fuel, hitem, clean_item_edge_null o hitem]
        | bool b => simp [clean_item_fuel, hitem, clean_item_edge_bool o b hitem]
        | num m => simp [clean_item_fuel, hitem, clean_item_edge_num o m hitem]
    | null => simp [clean_item_fuel, clean_item]
    | bool b => simp [clean_item_fuel, clean_item]
    | num m => simp [clean_item_fuel, clean_item]
    | str st => simp [clean_item_fuel, clean_item]
    | arr a => simp [clean_item_fuel, clean_item]

/-- C1: every Request leaf node (a dict without an `item` key reached by the
walk) in the output tree has its `request` field equal to the fixed object
with method POST and the single Authorization bearer header, regardless of
any pre-existing `request` content, which is discarded. -/
theorem output_leaf_request (data out : JVal) (l : List (String × JVal))
    (h : run data = .ok out) (hL : LeafIn out l) :
    lookup l "request" = some requestScaffold :=
  (run_leaf_scaffold data out h l hL).1

/-- Witness for C1 on the concrete one-leaf collection. -/
theorem output_leaf_request_witness :
    lookup [("name", JVal.str "Get User"), ("request", requestScaffold),
      ("response", responseScaffold)] "request" = some requestScaffold :=
  output_leaf_request
    (.obj [("item", .arr [.obj [("name", .str "Get User")]])])
    (.obj [("item", .arr [.obj [("name", JVal.str "Get User"), ("request", requestScaffold),
      ("response", responseScaffold)]])])
    [("name", JVal.str "Get User"), ("request", requestScaffold), ("response", responseScaffold)]
    (by simp [run, clean_items, clean_item, name_item, lookup, setKey])
    (LeafIn.there _ _ _ _ rfl (List.Mem.head _) (LeafIn.here _ rfl))

/-- C2: every Request leaf node in the output tree has its `response` field
equal to the fixed two-element array of Success/Error placeholders (with
the trailing spaces), discarding any pre-existing `response` content. -/
theorem output_leaf_response (data out : JVal) (l : List (String × JVal))
    (h : run data = .ok out) (hL : LeafIn out l) :
    lookup l "response" = some responseScaffold :=
  (run_leaf_scaffold data out h l hL).2

/-- Witness for C2 on the concrete one-leaf collection. -/
theorem output_leaf_response_witness :
    lookup [("name", JVal.str "Get User"), ("request", requestScaffold),
      ("response", responseScaffold)] "response" = some responseScaffold :=
  output_leaf_response
    (.obj [("item", .arr [.obj [("name", .str "Get User")]])])
    (.obj [("item", .arr [.obj [("name", JVal.str "Get User"), ("request", requestScaffold),
      ("response", responseScaffold)]])])
    [("name", JVal.str "Get User"), ("request", requestScaffold), ("response", responseScaffold)]
    (by simp [run, clean_items, clean_item, name_item, lookup, setKey])
    (LeafIn.there _ _ _ _ rfl (List.Mem.head _) (LeafIn.here _ rfl))

/-- C3: on a Request leaf whose `event` key holds an array, the mutator
overwrites the `script` field of every element with the fixed
text/javascript access-token-extraction script while leaving every other
field of each element unchanged; a leaf without an `event` key gains no
`event` field. -/
theorem name_item_event_effect (o o2 : List (String × JVal))
    (h : name_item (.obj o) = .ok (.obj o2)) :
    (∀ evs, lookup o "event" = some (.arr evs) →
      ∃ eos : List (List (String × JVal)),
        evs = eos.map JVal.obj ∧
        lookup o2 "event" =
          some (.arr (eos.map fun eo => JVal.obj (setKey eo "script" scriptScaffold))) ∧
        ∀ eo k, k ≠ "script" → lookup (setKey eo "script" scriptScaffold) k = lookup eo k) ∧
    (lookup o "event" = none → lookup o2 "event" = none) := by
  obtain ⟨o2', hw, hc⟩ := name_item_cases o _ h
  injection hw with hw
  subst hw
  constructor
  · intro evs hev
    rcases hc with ⟨hevN, ho2⟩ | ⟨evs2, evs', hevA, hse, ho2⟩ | ⟨hevO, ho2⟩ | ⟨hevS, ho2⟩
    · rw [hevN] at hev
      cases hev
    · rw [hevA] at hev
      injection hev with hev
      injection hev with hev
      subst hev
      obtain ⟨eos, h1, h2⟩ := set_event_scripts_ok evs2 evs' hse
      refine ⟨eos, h1, ?_, ?_⟩
      · rw [ho2, lookup_setKey_ne _ _ _ _ (by decide), lookup_setKey_self, h2]
      · intro eo k hk
        exact lookup_setKey_ne eo "script" scriptScaffold k (Ne.symm hk)
    · rw [hevO] at hev
      cases hev
    · rw [hevS] at hev
      cases hev
  · intro hev
    rcases hc with ⟨hevN, ho2⟩ | ⟨evs2, evs', hevA, hse, ho2⟩ | ⟨hevO, ho2⟩ | ⟨hevS, ho2⟩
    · rw [ho2, lookup_setKey_ne _ _ _ _ (by decide), lookup_setKey_ne _ _ _ _ (by decide), hevN]
    · rw [hevA] at hev
      cases hev
    · rw [hevO] at hev
      cases hev
    · rw [hevS] at hev
      cases hev

/-- Witness for C3 on a leaf with one test event. -/
theorem name_item_event_effect_witness :
    ∃ eos : List (List (String × JVal)),
      [JVal.obj [("listen", JVal.str "test"),
        ("script", JVal.obj [("exec", JVal.arr [JVal.str "old"])])]] = eos.map JVal.obj ∧
      lookup [("event", JVal.arr [JVal.obj [("listen", JVal.str "test"),
          ("script", scriptScaffold)]]), ("request", requestScaffold),
          ("response", responseScaffold)] "event" =
        some (.arr (eos.map fun eo => JVal.obj (setKey eo "script" scriptScaffold))) ∧
      ∀ eo k, k ≠ "script" → lookup (setKey eo "script" scriptScaffold) k = lookup eo k :=
  (name_item_event_effect
    [("event", JVal.arr [JVal.obj [("listen", JVal.str "test"),
      ("script", JVal.obj [("exec", JVal.arr [JVal.str "old"])])]])]
    [("event", JVal.arr [JVal.obj [("listen", JVal.str "test"), ("script", scriptScaffold)]]),
      ("request", requestScaffold), ("response", responseScaffold)]
    (by simp [name_item, set_event_scripts, lookup, setKey])).1
    [JVal.obj [("listen", JVal.str "test"),
      ("script", JVal.obj [("exec", JVal.arr [JVal.str "old"])])]]
    rfl

/-- C4: the walker treats every dict as exactly one of Folder or Request by
presence of the `item` key alone: with `item` holding an array (empty
included) it recurses over the elements in array order, depth first,
without mutating the node itself; without an `item` key it hands the node
to the leaf mutator. -/
theorem clean_item_dispatch (o : List (String × JVal)) :
    (∀ xs, lookup o "item" = some (.arr xs) →
      clean_item (.obj o) =
        (match clean_items xs with
         | .error e => .error e
         | .ok xs' => .ok (.obj (setKey o "item" (.arr xs'))))) ∧
    (∀ x xs, clean_items (x :: xs) =
      (match clean_item x with
       | .error e => .error e
       | .ok x' =>
         match clean_items xs with
         | .error e => .error e
         | .ok xs' => .ok (x' :: xs'))) ∧
    (lookup o "item" = none → clean_item (.obj o) = name_item (.obj o)) :=
  ⟨fun xs h => clean_item_folder o xs h,
   fun x xs => by rw [clean_items],
   fun h => clean_item_leaf o h⟩

/-- Witness for C4: an empty folder recurses (into nothing) and is not
mutated; a leaf is handed to the mutator. -/
theorem clean_item_dispatch_witness :
    clean_item (.obj [("item", JVal.arr [])]) = .ok (.obj [("item", JVal.arr [])]) ∧
    clean_item (.obj [("name", JVal.str "x")]) = name_item (.obj [("name", JVal.str "x")]) := by
  constructor
  · have h := (clean_item_dispatch [("item", JVal.arr [])]).1 [] rfl
    rw [h, clean_items]
    rfl
  · exact (clean_item_dispatch [("name", JVal.str "x")]).2.2 rfl

/-- C5: frame condition — a successful walk leaves every folder field other
than the recursed `item` array untouched (names, order and count of
entries kept, children mapped in place), and on a leaf only `request`,
`event` and `response` can differ from the input. -/
theorem clean_item_frame (o : List (String × JVal)) :
    (∀ xs xs', lookup o "item" = some (.arr xs) → clean_items xs = .ok xs' →
      clean_item (.obj o) = .ok (.obj (setKey o "item" (.arr xs'))) ∧
      (setKey o "item" (.arr xs')).map Prod.fst = o.map Prod.fst ∧
      (∀ k, k ≠ "item" → lookup (setKey o "item" (.arr xs')) k = lookup o k) ∧
      xs'.length = xs.length ∧
      (∀ i (h1 : i < xs.length) (h2 : i < xs'.length),
        clean_item (xs.get ⟨i, h1⟩) = .ok (xs'.get ⟨i, h2⟩))) ∧
    (∀ o2, lookup o "item" = none → name_item (.obj o) = .ok (.obj o2) →
      ∀ k, k ≠ "request" → k ≠ "event" → k ≠ "response" → lookup o2 k = lookup o k) := by
  constructor
  · intro xs xs' hitem hcs
    refine ⟨?_, keys_setKey o "item" (.arr xs') (.arr xs) hitem,
      fun k hk => lookup_setKey_ne o "item" (.arr xs') k (Ne.symm hk),
      clean_items_length xs xs' hcs, clean_items_get xs xs' hcs⟩
    rw [clean_item_folder o xs hitem, hcs]
  · intro o2 _ hok k h1 h2 h3
    exact name_item_other o o2 k hok h1 h2 h3

/-- Witness for C5 on a one-child folder: the folder keeps its `name` and
key order, and the walk result is exactly the child sweep put back. -/
theorem clean_item_frame_witness :
    clean_item (.obj [("name", JVal.str "F"), ("item", JVal.arr [JVal.obj []])]) =
      .ok (.obj (setKey [("name", JVal.str "F"), ("item", JVal.arr [JVal.obj []])] "item"
        (.arr [JVal.obj [("request", requestScaffold), ("response", responseScaffold)]]))) ∧
    lookup (setKey [("name", JVal.str "F"), ("item", JVal.arr [JVal.obj []])] "item"
        (.arr [JVal.obj [("request", requestScaffold), ("response", responseScaffold)]])) "name" =
      lookup [("name", JVal.str "F"), ("item", JVal.arr [JVal.obj []])] "name" := by
  have h := (clean_item_frame [("name", JVal.str "F"), ("item", JVal.arr [JVal.obj []])]).1
    [JVal.obj []] [JVal.obj [("request", requestScaffold), ("response", responseScaffold)]]
    rfl (by simp [clean_items, clean_item, name_item, lookup, setKey])
  exact ⟨h.1, h.2.2.1 "name" (by decide)⟩

/-- C6: the whole mutation pass is idempotent — applying it to its own
successful output reproduces that output exactly. -/
theorem run_idempotent (data out : JVal) (h : run data = .ok out) :
    run out = .ok out :=
  run_idem data out h

/-- Witness for C6 on the concrete one-leaf collection. -/
theorem run_idempotent_witness :
    run (.obj [("item", JVal.arr [JVal.obj [("name", JVal.str "Get User"),
      ("request", requestScaffold), ("response", responseScaffold)]])]) =
      .ok (.obj [("item", JVal.arr [JVal.obj [("name", JVal.str "Get User"),
        ("request", requestScaffold), ("response", responseScaffold)]])]) :=
  run_idempotent (.obj [("item", JVal.arr [JVal.obj [("name", JVal.str "Get User")]])])
    (.obj [("item", JVal.arr [JVal.obj [("name", JVal.str "Get User"),
      ("request", requestScaffold), ("response", responseScaffold)]])])
    (by simp [run, clean_items, clean_item, name_item, lookup, setKey])

/-- C7: end-to-end on the concrete input of the spec — a top-level entry
without an `item` key is itself mutated as a leaf, producing exactly the
documented output object. -/
theorem run_get_user_concrete :
    run (.obj [("item", .arr [.obj [("name", .str "Get User")]])]) =
      .ok (.obj [("item", .arr [.obj [("name", .str "Get User"),
        ("request", .obj [("method", .str "POST"),
          ("header", .arr [.obj [("key", .str "Authorization"),
                                 ("value", .str "Bearer \x7b\x7baccess_token\x7d\x7d"),
                                 ("type", .str "text")]])]),
        ("response", .arr [.obj [("name", .str "Success response ")],
                           .obj [("name", .str "Error response ")]])]])]) := by
  simp [run, clean_items, clean_item, name_item, lookup, setKey,
    requestScaffold, responseScaffold]

/-- C8: atomicity of the file — every error during load, parse or traversal
propagates and leaves the file untouched; the file is rewritten only after
the traversal of all top-level items succeeds, and then it holds the
serialized mutated tree. -/
theorem scriptRun_atomic (parse : String → Except String JVal)
    (render : JVal → String) (fs : Option String) :
    (∀ e, (scriptRun parse render fs).1 = .error e → (scriptRun parse render fs).2 = fs) ∧
    (∀ u, (scriptRun parse render fs).1 = .ok u →
      ∃ c data data', fs = some c ∧ parse c = .ok data ∧ run data = .ok data' ∧
        (scriptRun parse render fs).2 = some (render data')) := by
  cases fs with
  | none =>
    constructor
    · intro e _
      rfl
    · intro u hu
      simp [scriptRun] at hu
  | some c =>
    rcases hp : parse c with e | data
    · constructor
      · intro e2 _
        simp [scriptRun, hp]
      · intro u hu
        simp [scriptRun, hp] at hu
    · rcases hr : run data with e | data'
      · constructor
        · intro e2 _
          simp [scriptRun, hp, hr]
        · intro u hu
          simp [scriptRun, hp, hr] at hu
      · constructor
        · intro e2 he
          simp [scriptRun, hp, hr] at he
        · intro u _
          exact ⟨c, data, data', rfl, hp, hr, by simp [scriptRun, hp, hr]⟩

/-- Witness for C8: a parse failure leaves the file content unchanged. -/
theorem scriptRun_atomic_witness :
    (scriptRun (fun _ => .error "JSONDecodeError") (fun _ => "") (some "x")).2 = some "x" :=
  (scriptRun_atomic (fun _ => .error "JSONDecodeError") (fun _ => "") (some "x")).1
    "JSONDecodeError" rfl

/-- C9: the walker terminates on every finite input with no depth or count
limit: `clean_item` is a total function (defined by well-founded recursion
on the nesting structure), and the depth-bounded variant agrees with it as
soon as the bound reaches the size of the input. -/
theorem clean_item_no_depth_limit (n : Nat) (v : JVal) (h : sizeOf v ≤ n) :
    clean_item_fuel n v = clean_item v :=
  clean_item_fuel_eq n v h

/-- Witness for C9 on a small concrete tree. -/
theorem clean_item_no_depth_limit_witness :
    sizeOf (JVal.obj []) ≤ 5 ∧ clean_item_fuel 5 (JVal.obj []) = clean_item (JVal.obj []) :=
  ⟨by decide, clean_item_no_depth_limit 5 (JVal.obj []) (by decide)⟩

/-- C10: the transformation is deterministic — the output tree is a pure
function of the parsed input tree, with no dependence on anything else. -/
theorem run_deterministic (d1 d2 o1 o2 : JVal) (h : d1 = d2)
    (h1 : run d1 = .ok o1) (h2 : run d2 = .ok o2) : o1 = o2 := by
  subst h
  rw [h1] at h2
  injection h2

/-- Witness for C10: two runs on the same concrete input agree. -/
theorem run_deterministic_witness :
    JVal.obj [("item", JVal.arr [])] = JVal.obj [("item", JVal.arr [])] :=
  run_deterministic (JVal.obj [("item", JVal.arr [])]) (JVal.obj [("item", JVal.arr [])])
    (JVal.obj [("item", JVal.arr [])]) (JVal.obj [("item", JVal.arr [])]) rfl
    (by simp [run, clean_items, lookup, setKey]) (by simp [run, clean_items, lookup, setKey])

end Ko
